import Mathlib

/-!
Shallow embedding of the bill-splitting core of the repository
(`bot/services/bill_splitter.py`).  Python floats are modelled as exact
rationals; Python `round(x, 2)` is modelled as round-to-nearest at two
decimals (tie behaviour is irrelevant to every statement below).  Python
dicts are modelled as association lists (callers of the embedded
functions pass duplicate-free keys, as a dict guarantees), and Python
sets as duplicate-free lists.
-/

/-- `ReceiptItem` from the source data model (quantity is an int there,
prices are floats, modelled as rationals). -/
structure ReceiptItem where
  name : String
  quantity : Int
  unit_price : Rat
  total_price : Rat
deriving DecidableEq, Inhabited

/-- `ReceiptData` from the source data model. -/
structure ReceiptData where
  merchant : Option String
  date : Option String
  total_amount : Rat
  items : List ReceiptItem
  service_charge : Option Rat
  tax_amount : Option Rat
deriving DecidableEq, Inhabited

/-- `BillSplitResult` from the source data model. -/
structure BillSplitResult where
  person : String
  owes : Rat
  items : List String
deriving DecidableEq, Inhabited

/-- `ContextParsingResult` from the source data model: the schema of the
language-model response for context parsing, before reconciliation. -/
structure ContextParsingResult where
  assignments : List (String × List String)
  shared_items : List String
  participants : List String
deriving DecidableEq, Inhabited

/-- Model of Python `.lower()`: lower-case every character. -/
def lowerStr (s : String) : String := ⟨s.data.map Char.toLower⟩

/-- Model of the Python string order (lexicographic by code point), used
by `final_split.sort(key=lambda x: x.person)`. -/
def charListLe : List Char → List Char → Bool
  | [], _ => true
  | _ :: _, [] => false
  | c :: cs, d :: ds =>
    if c < d then true else if d < c then false else charListLe cs ds

/-- Model of Python `round(x, 2)`: round to the nearest multiple of
`1/100`. -/
def round2 (x : Rat) : Rat := ((round (100 * x) : Int) : Rat) / 100

/-- Model of the Python format specifier `:.2f` used in the summary
strings: the number rounded to two decimals, rendered with exactly two
decimal digits. -/
def fmt2 (x : Rat) : String :=
  let c : Int := round (100 * x)
  let sign := if c < 0 then "-" else ""
  let n := c.natAbs
  let r := n % 100
  sign ++ toString (n / 100) ++ "." ++
    (if r < 10 then "0" ++ toString r else toString r)

/-- Sum of `total_price` over a list of items, as the source computes with
`sum(item.total_price for item in items)`. -/
def itemsTotal (items : List ReceiptItem) : Rat :=
  (items.map (fun i => i.total_price)).sum

/-- The contribution of the assignment entries with key `q` to the running
subtotal of person `q` (the loop `for person, items in assignments.items()`
in `calculate_split`). -/
def assignedSubtotal (a : List (String × List ReceiptItem)) (q : String) : Rat :=
  ((a.filter (fun e => e.1 == q)).map (fun e => itemsTotal e.2)).sum

/-- `distribution_base` of `calculate_split`: the variable
`total_items_cost`, the sum of every assigned item total (over all
assignment keys, participants or not) plus the total of the shared
items. -/
def distribution_base (a : List (String × List ReceiptItem))
    (s : List ReceiptItem) : Rat :=
  (a.map (fun e => itemsTotal e.2)).sum + itemsTotal s

/-- `person_subtotals[q]` after steps 1 and 2 of `calculate_split`:
assigned items plus the equal share of the shared items (the shared share
is added only when `num_people > 0`, as in the source). -/
def personSubtotal (a : List (String × List ReceiptItem))
    (s : List ReceiptItem) (n : Nat) (q : String) : Rat :=
  assignedSubtotal a q + (if 0 < n then itemsTotal s / (n : Rat) else 0)

/-- `person_totals_after_service[q]` in `calculate_split`, including the
(unreachable) `1/num_people` fallback expression of the source. -/
def personAfterService (a : List (String × List ReceiptItem))
    (s : List ReceiptItem) (n : Nat) (sc : Option Rat) (q : String) : Rat :=
  let S := sc.getD 0
  let D := distribution_base a s
  if 0 < S ∧ 0 < D then
    personSubtotal a s n q +
      (if 0 < D then personSubtotal a s n q / D else 1 / (n : Rat)) * S
  else
    personSubtotal a s n q

/-- `person_totals_after_tax[q]` in `calculate_split`; the tax base is
`distribution_base + service_charge`, again with the unreachable `1/n`
fallback of the source. -/
def personAfterTax (a : List (String × List ReceiptItem))
    (s : List ReceiptItem) (n : Nat) (sc : Option Rat) (tx : Option Rat)
    (q : String) : Rat :=
  let T := tx.getD 0
  let B := distribution_base a s + sc.getD 0
  if 0 < T ∧ 0 < B then
    personAfterService a s n sc q +
      (if 0 < B then personAfterService a s n sc q / B else 1 / (n : Rat)) * T
  else
    personAfterService a s n sc q

/-- `person_items_summary[q]` in `calculate_split`: the human-readable
lines accumulated for person `q` (assigned item lines, then the shared
line, then the service-charge line, then the tax line, exactly when the
corresponding distribution step runs in the source). -/
def personItemsSummary (a : List (String × List ReceiptItem))
    (s : List ReceiptItem) (n : Nat) (sc : Option Rat) (tx : Option Rat)
    (q : String) : List String :=
  let assigned :=
    (((a.filter (fun e => e.1 == q)).map (fun e => e.2)).flatten).map
      (fun i => i.name ++ " ($" ++ fmt2 i.total_price ++ ")")
  let sharedLine :=
    if s ≠ [] ∧ 0 < n then
      ["Shared Items ($" ++ fmt2 (itemsTotal s / (n : Rat)) ++ " each)"]
    else []
  let S := sc.getD 0
  let D := distribution_base a s
  let serviceLine :=
    if 0 < S ∧ 0 < D then
      ["Service Charge Share ($" ++
        fmt2 ((if 0 < D then personSubtotal a s n q / D else 1 / (n : Rat)) * S) ++ ")"]
    else []
  let T := tx.getD 0
  let B := D + S
  let taxLine :=
    if 0 < T ∧ 0 < B then
      ["Tax Share ($" ++
        fmt2 ((if 0 < B then personAfterService a s n sc q / B else 1 / (n : Rat)) * T) ++ ")"]
    else []
  assigned ++ sharedLine ++ serviceLine ++ taxLine

/-- Stable insertion of one result into a list sorted by person name. -/
def insertByPerson (x : BillSplitResult) :
    List BillSplitResult → List BillSplitResult
  | [] => [x]
  | y :: ys =>
    if charListLe x.person.data y.person.data then x :: y :: ys
    else y :: insertByPerson x ys

/-- Model of `final_split.sort(key=lambda x: x.person)`. -/
def sortByPerson : List BillSplitResult → List BillSplitResult
  | [] => []
  | x :: xs => insertByPerson x (sortByPerson xs)

/-- The main computation of `calculate_split` after the participant
guards: one `BillSplitResult` per participant, rounded to two decimals
and sorted by person name.  The receipt total takes part only in the
logged warning, not in the returned value. -/
def splitMain (a : List (String × List ReceiptItem)) (s : List ReceiptItem)
    (p : List String) (sc : Option Rat) (tx : Option Rat) :
    List BillSplitResult :=
  let n := p.length
  sortByPerson (p.map (fun q =>
    { person := q
      owes := round2 (personAfterTax a s n sc tx q)
      items := personItemsSummary a s n sc tx q }))

/-- `calculate_split` from the source: guards for missing participants
(including the participant inference from assignment keys, and the
unreachable second error of the source), then the pure split
computation. -/
def calculate_split (assignments : List (String × List ReceiptItem))
    (shared_items : List ReceiptItem) (participants : List String)
    (total_amount : Rat) (service_charge : Option Rat)
    (tax_amount : Option Rat) : Except String (List BillSplitResult) :=
  if participants = [] ∧ shared_items ≠ [] then
    .error "Error: Shared items exist, but no participants were identified to split amongst."
  else
    let ps := if participants = [] ∧ assignments ≠ [] then
        (assignments.map Prod.fst).dedup
      else participants
    if (participants = [] ∧ assignments ≠ []) ∧ ps = [] then
      .error "Error: Items assigned, but could not determine participants."
    else if ps = [] then
      .error "Error: No participants found to split the bill."
    else
      let _ := total_amount
      .ok (splitMain assignments shared_items ps service_charge tax_amount)

/-- The characters escaped by `TextProcessor.escape_markdown` (the raw
Python string containing underscore, star, brackets, parens, tilde,
backtick, angle, hash, plus, minus, equals, pipe, braces, dot, bang). -/
def escapeChars : String := "_*[]()~`>#+-=|\x7b\x7d.!"

/-- `TextProcessor.escape_markdown`: prefix every special character with a
backslash. -/
def escape_markdown (text : String) : String :=
  ⟨(text.data.map (fun c =>
      if escapeChars.data.contains c then ['\\', c] else [c])).flatten⟩

/-- `format_split_results` from the source: the fixed fallback string for
an empty result list, otherwise the per-person lines, the receipt summary
block, the checksum line with its tolerance warning, and the disclaimer.
The emoji bytes are copied from the source file as stored. -/
def format_split_results (split_results : List BillSplitResult)
    (receipt_total : Rat) (service_charge : Option Rat)
    (tax_amount : Option Rat) : String :=
  if split_results = [] then
    "Could not calculate the split. No results generated."
  else
    let calculated_sum_check := (split_results.map (fun r => r.owes)).sum
    let result_lines := split_results.map (fun res =>
      "*" ++ escape_markdown res.person ++ " owes: $" ++ fmt2 res.owes ++ "*")
    let m1 := "ðŸ“Š *Bill Split Result:*\n\n" ++ String.intercalate "\n" result_lines
    let m2 := m1 ++ "\n\nðŸ§¾ *Receipt Summary:*\n" ++
      "  \\- *Total Amount Paid:* $" ++ fmt2 receipt_total ++ "\n"
    let m3 := m2 ++ (match service_charge with
      | some sc => if 0 < sc then "  \\- Service Charge: $" ++ fmt2 sc ++ "\n" else ""
      | none => "")
    let m4 := m3 ++ (match tax_amount with
      | some tx => if 0 < tx then "  \\- Tax (GST/VAT etc\\.): $" ++ fmt2 tx ++ "\n" else ""
      | none => "")
    let m5 := m4 ++ "\nâœ… Calculated Split Sum: $" ++ fmt2 calculated_sum_check
    let tolerance := (1 / 100 : Rat) * (split_results.length : Rat)
    let m6 := m5 ++
      (if tolerance < |calculated_sum_check - receipt_total| then
        " \\(*Warning:* Does not exactly match receipt total of $" ++
          fmt2 receipt_total ++ "\\)"
      else "")
    m6 ++ "\n\n_Please double\\-check the amounts\\. AI extraction and parsing might have inaccuracies\\._"

/-! Sample concrete values used by witnesses. -/

/-- A sample receipt item. -/
def itemA : ReceiptItem := ⟨"a", 1, 2, 2⟩

/-- Another sample receipt item. -/
def itemB : ReceiptItem := ⟨"b", 1, 3, 3⟩

/-- Claim C10: for the empty result list `format_split_results` returns
the fixed fallback string, regardless of the total, service-charge and
tax arguments; the fallback contains none of the per-person, summary or
checksum material, being a constant. -/
theorem format_split_results_empty (t : Rat) (sc tx : Option Rat) :
    format_split_results [] t sc tx =
      "Could not calculate the split. No results generated." := rfl

/-- Claim C1, evaluation at the failing input: with an empty distribution
base (no items at all) and a positive service charge of 6 split between
two participants, `calculate_split` distributes no service charge at all
(both owe 0), while the claimed equal-split fallback would give each
person 6 / 2.  The fallback expression `1/num_people` does occur in the
source, but inside a branch guarded by `distribution_base > 0`, so it is
unreachable. -/
theorem calculate_split_zero_base_eval :
    calculate_split [] [] ["A", "B"] 6 (some 6) none =
      .ok [⟨"A", 0, []⟩, ⟨"B", 0, []⟩] ∧ (0 : Rat) ≠ 6 / 2 := by
  constructor
  · norm_num [calculate_split, splitMain, personAfterTax, personAfterService,
      personSubtotal, assignedSubtotal, distribution_base, itemsTotal,
      personItemsSummary, sortByPerson, insertByPerson, round2, round_eq]
    simp +decide [charListLe]
  · norm_num

/-- Claim C3: `calculate_split` fails exactly when the participant list is
empty and either shared items exist or the assignments are empty too; and
with an empty participant list, non-empty assignments and no shared
items, it behaves as if called with the participant list inferred from
the assignment keys. -/
theorem calculate_split_failure_iff (a : List (String × List ReceiptItem))
    (s : List ReceiptItem) (p : List String) (t : Rat)
    (sc tx : Option Rat) :
    ((∃ e, calculate_split a s p t sc tx = .error e) ↔
      (p = [] ∧ (s ≠ [] ∨ a = []))) ∧
    (p = [] → a ≠ [] → s = [] →
      calculate_split a s p t sc tx =
        calculate_split a s ((a.map Prod.fst).dedup) t sc tx) := by
  constructor
  · constructor
    · rintro ⟨e, he⟩
      by_cases hp : p = []
      · subst hp
        by_cases hs : s = []
        · by_cases ha : a = []
          · exact ⟨rfl, Or.inr ha⟩
          · exfalso
            simp only [calculate_split, hs] at he
            simp [ha, List.dedup_eq_nil, List.map_eq_nil_iff] at he
        · exact ⟨rfl, Or.inl hs⟩
      · exfalso
        simp [calculate_split, hp] at he
    · rintro ⟨hp, hsa⟩
      subst hp
      by_cases hs : s = []
      · have ha : a = [] := by
          rcases hsa with h | h
          · exact absurd hs h
          · exact h
        subst ha; subst hs
        exact ⟨"Error: No participants found to split the bill.",
          by simp [calculate_split]⟩
      · exact ⟨"Error: Shared items exist, but no participants were identified to split amongst.",
          by simp [calculate_split, hs]⟩
  · intro hp ha hs
    subst hp
    have hd : (a.map Prod.fst).dedup ≠ [] := by
      simp [List.dedup_eq_nil, List.map_eq_nil_iff, ha]
    simp [calculate_split, hs, ha, hd]

/-- Witness for claim C3 at concrete inputs: the all-empty call fails, and
an empty participant list with one assignment behaves like the call with
the inferred participant list. -/
theorem calculate_split_failure_iff_witness :
    (∃ e, calculate_split ([] : List (String × List ReceiptItem)) [] [] 0
      none none = .error e) ∧
    calculate_split [("A", [itemA])] [] ([] : List String) 0 none none =
      calculate_split [("A", [itemA])] []
        (([("A", [itemA])].map Prod.fst).dedup) 0 none none := by
  refine ⟨(calculate_split_failure_iff [] [] [] 0 none none).1.mpr
    ⟨rfl, Or.inr rfl⟩, ?_⟩
  exact (calculate_split_failure_iff [("A", [itemA])] [] [] 0 none none).2
    rfl (by simp) rfl

/-- Claim C7: before rounding, every participant has exactly
`shared_total / n` added on top of the assigned-item subtotal, the same
amount for every participant regardless of assigned items. -/
theorem personSubtotal_equal_shared_split
    (a : List (String × List ReceiptItem)) (s : List ReceiptItem)
    (p : List String) (q : String) (hq : q ∈ p) :
    (personSubtotal a s p.length q - assignedSubtotal a q =
      itemsTotal s / (p.length : Rat)) ∧
    (∀ q2 ∈ p, personSubtotal a s p.length q - assignedSubtotal a q =
      personSubtotal a s p.length q2 - assignedSubtotal a q2) := by
  have hn : 0 < p.length := List.length_pos_of_mem hq
  constructor
  · simp [personSubtotal, hn]
  · intro q2 _
    simp [personSubtotal, hn]

/-- Witness for claim C7 at a concrete input: two participants, one
assigned item and one shared item. -/
theorem personSubtotal_equal_shared_split_witness :
    "P" ∈ ["P", "Q"] ∧
    ((personSubtotal [("P", [itemA])] [itemB] (["P", "Q"].length) "P" -
        assignedSubtotal [("P", [itemA])] "P" =
      itemsTotal [itemB] / ((["P", "Q"].length : Nat) : Rat)) ∧
    (∀ q2 ∈ ["P", "Q"],
      personSubtotal [("P", [itemA])] [itemB] (["P", "Q"].length) "P" -
        assignedSubtotal [("P", [itemA])] "P" =
      personSubtotal [("P", [itemA])] [itemB] (["P", "Q"].length) q2 -
        assignedSubtotal [("P", [itemA])] q2)) := by
  exact ⟨by decide,
    personSubtotal_equal_shared_split [("P", [itemA])] [itemB] ["P", "Q"]
      "P" (by decide)⟩

lemma assignedSubtotal_cons (e : String × List ReceiptItem)
    (a : List (String × List ReceiptItem)) (q : String) :
    assignedSubtotal (e :: a) q =
      (if e.1 = q then itemsTotal e.2 else 0) + assignedSubtotal a q := by
  by_cases h : e.1 = q <;> simp [assignedSubtotal, List.filter_cons, h]

lemma list_sum_map_add {α : Type} (p : List α) (f g : α → Rat) :
    (p.map (fun q => f q + g q)).sum = (p.map f).sum + (p.map g).sum := by
  induction p with
  | nil => simp
  | cons x xs ih => simp only [List.map_cons, List.sum_cons, ih]; ring

lemma list_sum_map_mul_right {α : Type} (p : List α) (f : α → Rat) (c : Rat) :
    (p.map (fun q => f q * c)).sum = (p.map f).sum * c := by
  induction p with
  | nil => simp
  | cons x xs ih => simp only [List.map_cons, List.sum_cons, ih]; ring

lemma list_sum_map_const (p : List String) (c : Rat) :
    (p.map (fun _ => c)).sum = (p.length : Rat) * c := by
  induction p with
  | nil => simp
  | cons x xs ih =>
    simp only [List.map_cons, List.sum_cons, List.length_cons, ih]
    push_cast; ring

lemma sum_ite_eq_key (p : List String) (hnd : p.Nodup) (x : String)
    (hx : x ∈ p) (c : Rat) :
    (p.map (fun q => if x = q then c else 0)).sum = c := by
  induction p with
  | nil => cases hx
  | cons y ys ih =>
    rcases List.nodup_cons.mp hnd with ⟨hy, hys⟩
    rcases List.mem_cons.mp hx with h | h
    · subst h
      have hz : (ys.map (fun q => if x = q then c else 0)).sum = 0 := by
        apply List.sum_eq_zero
        intro z hz
        rcases List.mem_map.mp hz with ⟨w, hw, hwz⟩
        have hxw : x ≠ w := by rintro rfl; exact hy hw
        simp [hxw] at hwz
        exact hwz.symm
      simp [hz]
    · have hxy : x ≠ y := by rintro rfl; exact hy h
      simp [hxy, ih hys h]

lemma sum_assignedSubtotal (a : List (String × List ReceiptItem))
    (p : List String) (hnd : p.Nodup) (hkeys : ∀ e ∈ a, e.1 ∈ p) :
    (p.map (fun q => assignedSubtotal a q)).sum =
      (a.map (fun e => itemsTotal e.2)).sum := by
  induction a with
  | nil => simp [assignedSubtotal]
  | cons e a ih =>
    have h1 : (p.map (fun q => assignedSubtotal (e :: a) q)) =
        (p.map (fun q => (if e.1 = q then itemsTotal e.2 else 0) +
          assignedSubtotal a q)) := by
      apply List.map_congr_left
      intro q _
      exact assignedSubtotal_cons e a q
    rw [h1, list_sum_map_add, sum_ite_eq_key p hnd e.1 (hkeys e (List.mem_cons_self e a)) _,
      ih (fun e2 he2 => hkeys e2 (List.mem_cons_of_mem e he2))]
    simp

lemma sum_personSubtotal (a : List (String × List ReceiptItem))
    (s : List ReceiptItem) (p : List String) (hnd : p.Nodup) (hne : p ≠ [])
    (hkeys : ∀ e ∈ a, e.1 ∈ p) :
    (p.map (fun q => personSubtotal a s p.length q)).sum =
      distribution_base a s := by
  have hn : 0 < p.length := List.length_pos.mpr hne
  have hn2 : ((p.length : Nat) : Rat) ≠ 0 := by positivity
  simp only [personSubtotal, if_pos hn]
  rw [list_sum_map_add, sum_assignedSubtotal a p hnd hkeys, list_sum_map_const]
  rw [distribution_base]
  field_simp

lemma sum_personAfterService (a : List (String × List ReceiptItem))
    (s : List ReceiptItem) (p : List String) (sc : Option Rat)
    (hnd : p.Nodup) (hne : p ≠ []) (hkeys : ∀ e ∈ a, e.1 ∈ p)
    (hD : 0 < distribution_base a s) (hS : 0 ≤ sc.getD 0) :
    (p.map (fun q => personAfterService a s p.length sc q)).sum =
      distribution_base a s + sc.getD 0 := by
  rcases lt_or_eq_of_le hS with hS2 | hS2
  · have h1 : (p.map (fun q => personAfterService a s p.length sc q)) =
        (p.map (fun q => personSubtotal a s p.length q +
          (personSubtotal a s p.length q) * (sc.getD 0 / distribution_base a s))) := by
      apply List.map_congr_left
      intro q _
      simp only [personAfterService, if_pos (And.intro hS2 hD), if_pos hD]
      field_simp
    rw [h1, list_sum_map_add, list_sum_map_mul_right,
      sum_personSubtotal a s p hnd hne hkeys]
    field_simp
  · have h1 : (p.map (fun q => personAfterService a s p.length sc q)) =
        (p.map (fun q => personSubtotal a s p.length q)) := by
      apply List.map_congr_left
      intro q _
      simp [personAfterService, ← hS2]
    rw [h1, sum_personSubtotal a s p hnd hne hkeys, ← hS2, add_zero]

lemma sum_personAfterTax (a : List (String × List ReceiptItem))
    (s : List ReceiptItem) (p : List String) (sc tx : Option Rat)
    (hnd : p.Nodup) (hne : p ≠ []) (hkeys : ∀ e ∈ a, e.1 ∈ p)
    (hD : 0 < distribution_base a s) (hS : 0 ≤ sc.getD 0)
    (hT : 0 ≤ tx.getD 0) :
    (p.map (fun q => personAfterTax a s p.length sc tx q)).sum =
      distribution_base a s + sc.getD 0 + tx.getD 0 := by
  have hB : 0 < distribution_base a s + sc.getD 0 := by linarith
  rcases lt_or_eq_of_le hT with hT2 | hT2
  · have h1 : (p.map (fun q => personAfterTax a s p.length sc tx q)) =
        (p.map (fun q => personAfterService a s p.length sc q +
          (personAfterService a s p.length sc q) *
            (tx.getD 0 / (distribution_base a s + sc.getD 0)))) := by
      apply List.map_congr_left
      intro q _
      simp only [personAfterTax, if_pos (And.intro hT2 hB), if_pos hB]
      field_simp
    rw [h1, list_sum_map_add, list_sum_map_mul_right,
      sum_personAfterService a s p sc hnd hne hkeys hD hS]
    field_simp
  · have h1 : (p.map (fun q => personAfterTax a s p.length sc tx q)) =
        (p.map (fun q => personAfterService a s p.length sc q)) := by
      apply List.map_congr_left
      intro q _
      simp [personAfterTax, ← hT2]
    rw [h1, sum_personAfterService a s p sc hnd hne hkeys hD hS, ← hT2, add_zero]

lemma abs_round2_sub (x : Rat) : |round2 x - x| ≤ 1 / 200 := by
  have h := abs_sub_round (100 * x)
  have h2 : round2 x - x = (((round (100 * x) : Int) : Rat) - 100 * x) / 100 := by
    rw [round2]; ring
  rw [h2, abs_div, abs_sub_comm]
  have h100 : |(100 : Rat)| = 100 := by norm_num
  rw [h100]
  linarith

lemma sum_round2_close (p : List String) (f : String → Rat) :
    |(p.map (fun q => round2 (f q))).sum - (p.map f).sum| ≤
      (p.length : Rat) * (1 / 200) := by
  induction p with
  | nil => simp
  | cons x xs ih =>
    simp only [List.map_cons, List.sum_cons, List.length_cons]
    have h1 := abs_round2_sub (f x)
    have h2 : round2 (f x) + (xs.map (fun q => round2 (f q))).sum -
        (f x + (xs.map f).sum) =
        (round2 (f x) - f x) +
          ((xs.map (fun q => round2 (f q))).sum - (xs.map f).sum) := by ring
    rw [h2]
    have h3 := abs_add (round2 (f x) - f x)
      ((xs.map (fun q => round2 (f q))).sum - (xs.map f).sum)
    push_cast
    linarith [h3, ih]

lemma insertByPerson_perm (x : BillSplitResult) (l : List BillSplitResult) :
    (insertByPerson x l).Perm (x :: l) := by
  induction l with
  | nil => simp [insertByPerson]
  | cons y ys ih =>
    rw [insertByPerson]
    by_cases h : charListLe x.person.data y.person.data = true
    · simp [h]
    · simp only [h, if_false, Bool.false_eq_true]
      exact ((ih.cons y).trans (List.Perm.swap x y ys))

lemma sortByPerson_perm (l : List BillSplitResult) :
    (sortByPerson l).Perm l := by
  induction l with
  | nil => simp [sortByPerson]
  | cons x xs ih =>
    rw [sortByPerson]
    exact (insertByPerson_perm x (sortByPerson xs)).trans (ih.cons x)

lemma splitMain_owes_sum (a : List (String × List ReceiptItem))
    (s : List ReceiptItem) (p : List String) (sc tx : Option Rat) :
    ((splitMain a s p sc tx).map (fun e => e.owes)).sum =
      (p.map (fun q => round2 (personAfterTax a s p.length sc tx q))).sum := by
  rw [splitMain]
  rw [List.Perm.sum_eq ((sortByPerson_perm _).map _)]
  rw [List.map_map]
  rfl

/-- Claim C2 (amended): with a positive distribution base, nonnegative
service charge and tax, assignment keys all participants, and the receipt
total exactly the items total plus service charge plus tax, the sum of
the rounded owed amounts is within `0.01 * n` of the total; moreover the
returned value does not depend on the receipt total at all, so an
excessive deviation never turns into a failure. -/
theorem calculate_split_conservation (a : List (String × List ReceiptItem))
    (s : List ReceiptItem) (p : List String) (t : Rat) (sc tx : Option Rat)
    (hnd : p.Nodup) (hne : p ≠ [])
    (hkeys : ∀ e ∈ a, e.1 ∈ p)
    (hD : 0 < distribution_base a s)
    (hS : 0 ≤ sc.getD 0) (hT : 0 ≤ tx.getD 0)
    (ht : t = distribution_base a s + sc.getD 0 + tx.getD 0) :
    ∃ r, calculate_split a s p t sc tx = .ok r ∧
      |((r.map (fun e => e.owes)).sum) - t| ≤
        (1 / 100 : Rat) * (p.length : Rat) ∧
      (∀ t2, calculate_split a s p t2 sc tx = .ok r) := by
  have hok : ∀ t2 : Rat, calculate_split a s p t2 sc tx =
      .ok (splitMain a s p sc tx) := by
    intro t2
    simp [calculate_split, hne]
  refine ⟨splitMain a s p sc tx, hok t, ?_, hok⟩
  rw [splitMain_owes_sum]
  have hsum := sum_personAfterTax a s p sc tx hnd hne hkeys hD hS hT
  have hclose := sum_round2_close p (fun q => personAfterTax a s p.length sc tx q)
  rw [hsum] at hclose
  rw [ht]
  have hnn : (0 : Rat) ≤ (p.length : Rat) := by positivity
  have hhalf : (p.length : Rat) * (1 / 200) ≤ (1 / 100) * (p.length : Rat) := by
    nlinarith
  linarith [hclose]

/-- Claim C2, counterexample to the original statement: with no items at
all, one participant, a service charge of 10 and total 10, the data is
consistent in the sense of the claim, yet the one participant owes 0 and
the deviation is 10, far beyond the 0.01 tolerance: the zero distribution
base makes the code skip the service-charge distribution entirely. -/
theorem calculate_split_conservation_counterexample :
    calculate_split [] [] ["A"] 10 (some 10) none = .ok [⟨"A", 0, []⟩] ∧
    (10 : Rat) = distribution_base [] [] + (some (10 : Rat)).getD 0 +
      (none : Option Rat).getD 0 ∧
    ¬ (|(([⟨"A", 0, []⟩] : List BillSplitResult).map (fun e => e.owes)).sum -
        10| ≤ (1 / 100 : Rat) * ((["A"] : List String).length : Rat)) := by
  refine ⟨?_, by norm_num [distribution_base, itemsTotal], by norm_num⟩
  norm_num [calculate_split, splitMain, personAfterTax, personAfterService,
    personSubtotal, assignedSubtotal, distribution_base, itemsTotal,
    personItemsSummary, sortByPerson, insertByPerson, round2, round_eq]

/-- Witness for claim C2 (amended) at a concrete consistent input with a
positive distribution base. -/
theorem calculate_split_conservation_witness :
    ((["A", "B"] : List String).Nodup ∧ (["A", "B"] : List String) ≠ [] ∧
      (∀ e ∈ [("A", [itemA])], e.1 ∈ ["A", "B"]) ∧
      0 < distribution_base [("A", [itemA])] [itemB] ∧
      (0 : Rat) ≤ (some (1 : Rat)).getD 0 ∧
      (0 : Rat) ≤ (some (2 : Rat)).getD 0 ∧
      (8 : Rat) = distribution_base [("A", [itemA])] [itemB] +
        (some (1 : Rat)).getD 0 + (some (2 : Rat)).getD 0) ∧
    (∃ r, calculate_split [("A", [itemA])] [itemB] ["A", "B"] 8
        (some 1) (some 2) = .ok r ∧
      |((r.map (fun e => e.owes)).sum) - 8| ≤
        (1 / 100 : Rat) * (((["A", "B"] : List String).length : Nat) : Rat) ∧
      (∀ t2, calculate_split [("A", [itemA])] [itemB] ["A", "B"] t2
        (some 1) (some 2) = .ok r)) := by
  have h1 : (["A", "B"] : List String).Nodup := by decide
  have h2 : (["A", "B"] : List String) ≠ [] := by decide
  have h3 : ∀ e ∈ [("A", [itemA])], e.1 ∈ ["A", "B"] := by decide
  have h4 : 0 < distribution_base [("A", [itemA])] [itemB] := by
    norm_num [distribution_base, itemsTotal, itemA, itemB]
  have h5 : (0 : Rat) ≤ (some (1 : Rat)).getD 0 := by norm_num
  have h6 : (0 : Rat) ≤ (some (2 : Rat)).getD 0 := by norm_num
  have h7 : (8 : Rat) = distribution_base [("A", [itemA])] [itemB] +
      (some (1 : Rat)).getD 0 + (some (2 : Rat)).getD 0 := by
    norm_num [distribution_base, itemsTotal, itemA, itemB]
  exact ⟨⟨h1, h2, h3, h4, h5, h6, h7⟩,
    calculate_split_conservation [("A", [itemA])] [itemB] ["A", "B"] 8
      (some 1) (some 2) h1 h2 h3 h4 h5 h6 h7⟩

lemma sortByPerson_map_person_perm (l : List BillSplitResult) :
    ((sortByPerson l).map (fun e => e.person)).Perm
      (l.map (fun e => e.person)) :=
  (sortByPerson_perm l).map _

lemma splitMain_persons (a : List (String × List ReceiptItem))
    (s : List ReceiptItem) (p : List String) (sc tx : Option Rat) :
    ((splitMain a s p sc tx).map (fun e => e.person)).Perm p := by
  rw [splitMain]
  refine (sortByPerson_map_person_perm _).trans ?_
  have h : (List.map
      ((fun e : BillSplitResult => e.person) ∘ fun q =>
        (⟨q, round2 (personAfterTax a s p.length sc tx q),
          personItemsSummary a s p.length sc tx q⟩ : BillSplitResult)) p) = p := by
    rw [show ((fun e : BillSplitResult => e.person) ∘ fun q =>
        (⟨q, round2 (personAfterTax a s p.length sc tx q),
          personItemsSummary a s p.length sc tx q⟩ : BillSplitResult)) =
      fun q : String => q from rfl]
    exact List.map_id p
  rw [List.map_map, h]

lemma mem_splitMain (a : List (String × List ReceiptItem))
    (s : List ReceiptItem) (p : List String) (sc tx : Option Rat)
    (e : BillSplitResult) (he : e ∈ splitMain a s p sc tx) :
    ∃ q ∈ p, e.person = q ∧
      e.owes = round2 (personAfterTax a s p.length sc tx q) := by
  rw [splitMain] at he
  have h2 := (sortByPerson_perm _).mem_iff.mp he
  rcases List.mem_map.mp h2 with ⟨q, hq, rfl⟩
  exact ⟨q, hq, rfl, rfl⟩

/-- Claim C9: a successful split returns exactly one result per
participant (their persons are a permutation of the duplicate-free
participant list, with no duplicates), each owed amount is the rounded
after-tax total of that participant, no assignment key outside the
participants receives an entry, and every assignment entry, participant
or not, adds its items total to the distribution base used to proportion
service charge and tax. -/
theorem calculate_split_result_entries (a : List (String × List ReceiptItem))
    (s : List ReceiptItem) (p : List String) (t : Rat) (sc tx : Option Rat)
    (hnd : p.Nodup) (hne : p ≠ []) :
    ∃ r, calculate_split a s p t sc tx = .ok r ∧
      (r.map (fun e => e.person)).Perm p ∧
      (r.map (fun e => e.person)).Nodup ∧
      (∀ e ∈ r, e.owes = round2 (personAfterTax a s p.length sc tx e.person)) ∧
      (∀ q, q ∉ p → ∀ e ∈ r, e.person ≠ q) ∧
      (∀ (q : String) (items : List ReceiptItem),
        distribution_base ((q, items) :: a) s =
          itemsTotal items + distribution_base a s) := by
  have hok : calculate_split a s p t sc tx = .ok (splitMain a s p sc tx) := by
    simp [calculate_split, hne]
  have hperm := splitMain_persons a s p sc tx
  refine ⟨splitMain a s p sc tx, hok, hperm, hperm.nodup_iff.mpr hnd, ?_, ?_, ?_⟩
  · intro e he
    rcases mem_splitMain a s p sc tx e he with ⟨q, _, hpq, how⟩
    rw [hpq, how]
  · intro q hq e he
    rcases mem_splitMain a s p sc tx e he with ⟨q2, hq2, hpq, _⟩
    rw [hpq]
    rintro rfl
    exact hq hq2
  · intro q items
    simp [distribution_base]
    ring

/-- Witness for claim C9 at a concrete input whose only assignment key is
not among the participants. -/
theorem calculate_split_result_entries_witness :
    ((["B", "A"] : List String).Nodup ∧ (["B", "A"] : List String) ≠ []) ∧
    (∃ r, calculate_split [("C", [itemA])] [] ["B", "A"] 0 none none = .ok r ∧
      (r.map (fun e => e.person)).Perm ["B", "A"] ∧
      (r.map (fun e => e.person)).Nodup ∧
      (∀ e ∈ r, e.owes = round2 (personAfterTax [("C", [itemA])] []
        ((["B", "A"] : List String).length) none none e.person)) ∧
      (∀ q, q ∉ (["B", "A"] : List String) → ∀ e ∈ r, e.person ≠ q) ∧
      (∀ (q : String) (items : List ReceiptItem),
        distribution_base ((q, items) :: [("C", [itemA])]) [] =
          itemsTotal items + distribution_base [("C", [itemA])] [])) := by
  exact ⟨⟨by decide, by decide⟩,
    calculate_split_result_entries [("C", [itemA])] [] ["B", "A"] 0 none none
      (by decide) (by decide)⟩

/-- The `item_lookup` dict of `parse_payment_context_with_llm`:
`item.name.lower()` maps to the item; on duplicate lowered names the
later item wins, as in a Python dict comprehension. -/
def item_lookup : List ReceiptItem → String → Option ReceiptItem
  | [], _ => none
  | i :: rest, ln =>
    match item_lookup rest ln with
    | some r => some r
    | none => if lowerStr i.name == ln then some i else none

/-- One resolution loop of the reconciliation in
`parse_payment_context_with_llm`: resolve each referenced name through
the lookup, skip names not found and names already claimed, claim each
newly resolved name.  The source runs this loop once per person of
`assignments` and once for `shared_items`.  Returns the resolved items in
order plus the grown claimed-name set. -/
def resolveNames (L : String → Option ReceiptItem) :
    List String → List String → List ReceiptItem × List String
  | [], claimed => ([], claimed)
  | name :: rest, claimed =>
    let ln := lowerStr name
    match L ln with
    | some item =>
      if ln ∈ claimed then resolveNames L rest claimed
      else
        let r := resolveNames L rest (ln :: claimed)
        (item :: r.1, r.2)
    | none => resolveNames L rest claimed

/-- The assignments loop of the reconciliation: one `resolveNames` pass
per person in the order given by the model, keeping only persons whose
resolved list is non-empty. -/
def resolveAssignments (L : String → Option ReceiptItem) :
    List (String × List String) → List String →
    List (String × List ReceiptItem) × List String
  | [], claimed => ([], claimed)
  | (person, names) :: rest, claimed =>
    let r1 := resolveNames L names claimed
    let r2 := resolveAssignments L rest r1.2
    (if r1.1 = [] then r2.1 else (person, r1.1) :: r2.1, r2.2)

/-- The set `original_item_names_lower`: lowered canonical item names,
modelled as a duplicate-free list. -/
def lowerNames (ris : List ReceiptItem) : List String :=
  (ris.map (fun i => lowerStr i.name)).dedup

/-- `unprocessed_items_lower`: canonical lowered names not yet claimed. -/
def unprocessedNames (ris : List ReceiptItem) (claimed : List String) :
    List String :=
  (lowerNames ris).filter (fun ln => decide (ln ∉ claimed))

/-- The defaulting loop over the unprocessed names: look each one up and
append the found item (the `if item:` guard of the source is the
`filterMap`).  The source iterates a Python set here, whose order is
unspecified; the model iterates in canonical receipt order, and no
claim depends on this order. -/
def defaultUnprocessed (ris : List ReceiptItem) (claimed : List String) :
    List ReceiptItem :=
  (unprocessedNames ris claimed).filterMap (item_lookup ris)

/-- The triple returned by `parse_payment_context_with_llm` on success:
`final_assignments`, `final_shared_items`, `final_participants` (the
participant set is modelled as a duplicate-free list). -/
structure ReconcileResult where
  assignments : List (String × List ReceiptItem)
  shared_items : List ReceiptItem
  participants : List String
deriving DecidableEq, Inhabited

/-- The deterministic reconciliation section of
`parse_payment_context_with_llm`, run after the model response has been
validated into a `ContextParsingResult`: resolve the assignments, then
the shared list, then default unprocessed items to shared when the model
listed participants, and union the participants with the assignment
keys.  This section is total: it always returns a triple, never a
failure string. -/
def reconcile_context (pr : ContextParsingResult) (ris : List ReceiptItem) :
    ReconcileResult :=
  let L := item_lookup ris
  let ra := resolveAssignments L pr.assignments []
  let rs := resolveNames L pr.shared_items ra.2
  let shared2 :=
    if unprocessedNames ris rs.2 ≠ [] ∧ pr.participants ≠ [] then
      rs.1 ++ defaultUnprocessed ris rs.2
    else rs.1
  ⟨ra.1, shared2, (pr.participants ++ ra.1.map Prod.fst).dedup⟩

/-- All items placed in some bucket by the reconciliation: every
assignment list, then the shared list. -/
def bucketItems (r : ReconcileResult) : List ReceiptItem :=
  (r.assignments.map (fun e => e.2)).flatten ++ r.shared_items

lemma item_lookup_name (ris : List ReceiptItem) (ln : String)
    (i : ReceiptItem) (h : item_lookup ris ln = some i) :
    lowerStr i.name = ln := by
  induction ris with
  | nil => simp [item_lookup] at h
  | cons j rest ih =>
    rw [item_lookup] at h
    rcases hr : item_lookup rest ln with _ | r
    · rw [hr] at h
      simp only at h
      by_cases hj : lowerStr j.name == ln
      · rw [if_pos hj] at h
        cases h
        exact beq_iff_eq.mp hj
      · rw [if_neg hj] at h
        cases h
    · rw [hr] at h
      simp only at h
      cases h
      exact ih hr

lemma item_lookup_mem (ris : List ReceiptItem) (ln : String)
    (i : ReceiptItem) (h : item_lookup ris ln = some i) : i ∈ ris := by
  induction ris with
  | nil => simp [item_lookup] at h
  | cons j rest ih =>
    rw [item_lookup] at h
    rcases hr : item_lookup rest ln with _ | r
    · rw [hr] at h
      simp only at h
      by_cases hj : lowerStr j.name == ln
      · rw [if_pos hj] at h
        cases h
        exact List.mem_cons_self _ _
      · rw [if_neg hj] at h
        cases h
    · rw [hr] at h
      simp only at h
      cases h
      exact List.mem_cons_of_mem _ (ih hr)

lemma item_lookup_isSome (ris : List ReceiptItem) (ln : String)
    (h : ln ∈ ris.map (fun i => lowerStr i.name)) :
    ∃ i, item_lookup ris ln = some i := by
  induction ris with
  | nil => simp at h
  | cons j rest ih =>
    rw [item_lookup]
    rcases hr : item_lookup rest ln with _ | r
    · simp only
      rcases List.mem_map.mp h with ⟨w, hw, hwln⟩
      rcases List.mem_cons.mp hw with h2 | h2
      · subst h2
        rw [if_pos (beq_iff_eq.mpr hwln)]
        exact ⟨_, rfl⟩
      · exfalso
        rcases ih (List.mem_map.mpr ⟨w, h2, hwln⟩) with ⟨i, hi⟩
        rw [hi] at hr
        cases hr
    · exact ⟨r, rfl⟩

lemma resolveNames_spec (L : String → Option ReceiptItem)
    (hL : ∀ ln i, L ln = some i → lowerStr i.name = ln)
    (ns : List String) (claimed : List String) :
    (∀ x, x ∈ (resolveNames L ns claimed).2 ↔ x ∈ claimed ∨
      ∃ i ∈ (resolveNames L ns claimed).1, lowerStr i.name = x) ∧
    (∀ i ∈ (resolveNames L ns claimed).1,
      L (lowerStr i.name) = some i ∧ lowerStr i.name ∉ claimed ∧
        lowerStr i.name ∈ ns.map lowerStr) ∧
    ((resolveNames L ns claimed).1.map (fun i => lowerStr i.name)).Nodup := by
  induction ns generalizing claimed with
  | nil => simp [resolveNames]
  | cons name rest ih =>
    rcases hn : L (lowerStr name) with _ | item
    · obtain ⟨ih1, ih2, ih3⟩ := ih claimed
      have hred : resolveNames L (name :: rest) claimed =
          resolveNames L rest claimed := by
        rw [resolveNames, hn]
      rw [hred]
      refine ⟨ih1, fun i hi => ⟨(ih2 i hi).1, (ih2 i hi).2.1, ?_⟩, ih3⟩
      simp only [List.map_cons, List.mem_cons]
      exact Or.inr (ih2 i hi).2.2
    · by_cases hc : lowerStr name ∈ claimed
      · obtain ⟨ih1, ih2, ih3⟩ := ih claimed
        have hred : resolveNames L (name :: rest) claimed =
            resolveNames L rest claimed := by
          simp only [resolveNames, hn, if_pos hc]
        rw [hred]
        refine ⟨ih1, fun i hi => ⟨(ih2 i hi).1, (ih2 i hi).2.1, ?_⟩, ih3⟩
        simp only [List.map_cons, List.mem_cons]
        exact Or.inr (ih2 i hi).2.2
      · obtain ⟨ih1, ih2, ih3⟩ := ih (lowerStr name :: claimed)
        have hitem : lowerStr item.name = lowerStr name := hL _ _ hn
        have hred : resolveNames L (name :: rest) claimed =
            (item :: (resolveNames L rest (lowerStr name :: claimed)).1,
             (resolveNames L rest (lowerStr name :: claimed)).2) := by
          simp only [resolveNames, hn, if_neg hc]
        rw [hred]
        refine ⟨?_, ?_, ?_⟩
        · intro x
          rw [ih1 x, List.mem_cons]
          constructor
          · rintro ((h | h) | ⟨i, hi, hix⟩)
            · exact Or.inr ⟨item, List.mem_cons_self _ _, hitem.trans h.symm⟩
            · exact Or.inl h
            · exact Or.inr ⟨i, List.mem_cons_of_mem _ hi, hix⟩
          · rintro (h | ⟨i, hi, hix⟩)
            · exact Or.inl (Or.inr h)
            · rcases List.mem_cons.mp hi with h2 | h2
              · subst h2
                exact Or.inl (Or.inl (hix.symm.trans hitem))
              · exact Or.inr ⟨i, h2, hix⟩
        · intro i hi
          rcases List.mem_cons.mp hi with h2 | h2
          · subst h2
            rw [hitem]
            exact ⟨hn, hc, by simp⟩
          · obtain ⟨g1, g2, g3⟩ := ih2 i h2
            refine ⟨g1, fun hg => g2 (List.mem_cons_of_mem _ hg), ?_⟩
            simp only [List.map_cons, List.mem_cons]
            exact Or.inr g3
        · simp only [List.map_cons, List.nodup_cons]
          refine ⟨?_, ih3⟩
          intro hmem
          rcases List.mem_map.mp hmem with ⟨i, hi, hix⟩
          have := (ih2 i hi).2.1
          rw [hix] at this
          rw [hitem] at this
          exact this (List.mem_cons_self _ _)

lemma resolveNames_mono (L : String → Option ReceiptItem)
    (hL : ∀ ln i, L ln = some i → lowerStr i.name = ln)
    (ns claimed : List String) (x : String) (hx : x ∈ claimed) :
    x ∈ (resolveNames L ns claimed).2 :=
  ((resolveNames_spec L hL ns claimed).1 x).mpr (Or.inl hx)

lemma resolveNames_first (L : String → Option ReceiptItem)
    (ns claimed : List String) (ln : String) (item : ReceiptItem)
    (hitem : L ln = some item) (hc : ln ∉ claimed)
    (hin : ln ∈ ns.map lowerStr) :
    item ∈ (resolveNames L ns claimed).1 := by
  induction ns generalizing claimed with
  | nil => simp at hin
  | cons name rest ih =>
    by_cases he : lowerStr name = ln
    · have hred : resolveNames L (name :: rest) claimed =
          (item :: (resolveNames L rest (ln :: claimed)).1,
           (resolveNames L rest (ln :: claimed)).2) := by
        simp only [resolveNames, he, hitem, if_neg hc]
      rw [hred]
      exact List.mem_cons_self _ _
    · have hin2 : ln ∈ rest.map lowerStr := by
        rcases List.mem_map.mp hin with ⟨w, hw, hwl⟩
        rcases List.mem_cons.mp hw with h2 | h2
        · exact absurd (h2 ▸ hwl) he
        · exact List.mem_map.mpr ⟨w, h2, hwl⟩
      rcases hn : L (lowerStr name) with _ | j
      · have hred : resolveNames L (name :: rest) claimed =
            resolveNames L rest claimed := by
          simp only [resolveNames, hn]
        rw [hred]
        exact ih claimed hc hin2
      · by_cases hc2 : lowerStr name ∈ claimed
        · have hred : resolveNames L (name :: rest) claimed =
              resolveNames L rest claimed := by
            simp only [resolveNames, hn, if_pos hc2]
          rw [hred]
          exact ih claimed hc hin2
        · have hred : resolveNames L (name :: rest) claimed =
              (j :: (resolveNames L rest (lowerStr name :: claimed)).1,
               (resolveNames L rest (lowerStr name :: claimed)).2) := by
            simp only [resolveNames, hn, if_neg hc2]
          rw [hred]
          have hc3 : ln ∉ lowerStr name :: claimed := by
            intro hmem
            rcases List.mem_cons.mp hmem with h2 | h2
            · exact he h2.symm
            · exact hc h2
          exact List.mem_cons_of_mem _ (ih (lowerStr name :: claimed) hc3 hin2)

lemma resolveNames_claims (L : String → Option ReceiptItem)
    (hL : ∀ ln i, L ln = some i → lowerStr i.name = ln)
    (ns claimed : List String) (ln : String) (item : ReceiptItem)
    (hitem : L ln = some item) (hin : ln ∈ ns.map lowerStr) :
    ln ∈ (resolveNames L ns claimed).2 := by
  by_cases hc : ln ∈ claimed
  · exact resolveNames_mono L hL ns claimed ln hc
  · have hmem := resolveNames_first L ns claimed ln item hitem hc hin
    exact ((resolveNames_spec L hL ns claimed).1 ln).mpr
      (Or.inr ⟨item, hmem, hL ln item hitem⟩)

def asgRefs (asg : List (String × List String)) : List String :=
  (asg.map (fun e => e.2.map lowerStr)).flatten

lemma resolveAssignments_spec (L : String → Option ReceiptItem)
    (hL : ∀ ln i, L ln = some i → lowerStr i.name = ln)
    (asg : List (String × List String)) (claimed : List String) :
    (∀ x, x ∈ (resolveAssignments L asg claimed).2 ↔ x ∈ claimed ∨
      ∃ e ∈ (resolveAssignments L asg claimed).1, ∃ i ∈ e.2,
        lowerStr i.name = x) ∧
    (∀ e ∈ (resolveAssignments L asg claimed).1, ∀ i ∈ e.2,
      L (lowerStr i.name) = some i ∧ lowerStr i.name ∉ claimed ∧
        lowerStr i.name ∈ asgRefs asg) ∧
    ((((resolveAssignments L asg claimed).1.map (fun e => e.2)).flatten).map
      (fun i => lowerStr i.name)).Nodup := by
  induction asg generalizing claimed with
  | nil => simp [resolveAssignments]
  | cons pe rest ih =>
    rcases pe with ⟨person, names⟩
    obtain ⟨sp1, sp2, sp3⟩ := resolveNames_spec L hL names claimed
    obtain ⟨ih1, ih2, ih3⟩ := ih (resolveNames L names claimed).2
    have hmono : ∀ x ∈ claimed, x ∈ (resolveNames L names claimed).2 :=
      fun x hx => resolveNames_mono L hL names claimed x hx
    have hrefs : ∀ x, x ∈ names.map lowerStr → x ∈ asgRefs ((person, names) :: rest) := by
      intro x hx
      simp only [asgRefs, List.map_cons, List.flatten_cons]
      exact List.mem_append_left _ hx
    have hrefs2 : ∀ x, x ∈ asgRefs rest → x ∈ asgRefs ((person, names) :: rest) := by
      intro x hx
      simp only [asgRefs, List.map_cons, List.flatten_cons]
      exact List.mem_append_right _ hx
    have hnotin : ∀ i ∈ (resolveAssignments L rest
        (resolveNames L names claimed).2).1.map (fun e => e.2) |>.flatten,
        lowerStr i.name ∉ (resolveNames L names claimed).2 := by
      intro i hi
      rcases List.mem_flatten.mp hi with ⟨l, hl, hil⟩
      rcases List.mem_map.mp hl with ⟨e, he, rfl⟩
      exact (ih2 e he i hil).2.1
    by_cases hemp : (resolveNames L names claimed).1 = []
    · have hred : resolveAssignments L ((person, names) :: rest) claimed =
          ((resolveAssignments L rest (resolveNames L names claimed).2).1,
           (resolveAssignments L rest (resolveNames L names claimed).2).2) := by
        simp only [resolveAssignments, hemp, if_pos]
      rw [hred]
      have hcl : ∀ x, x ∈ (resolveNames L names claimed).2 ↔ x ∈ claimed := by
        intro x
        rw [sp1 x]
        constructor
        · rintro (h | ⟨i, hi, _⟩)
          · exact h
          · rw [hemp] at hi
            cases hi
        · exact Or.inl
      refine ⟨?_, ?_, ih3⟩
      · intro x
        rw [ih1 x, hcl x]
      · intro e he i hi
        obtain ⟨g1, g2, g3⟩ := ih2 e he i hi
        exact ⟨g1, fun hg => g2 ((hcl _).mpr hg), hrefs2 _ g3⟩
    · have hred : resolveAssignments L ((person, names) :: rest) claimed =
          ((person, (resolveNames L names claimed).1) ::
            (resolveAssignments L rest (resolveNames L names claimed).2).1,
           (resolveAssignments L rest (resolveNames L names claimed).2).2) := by
        simp only [resolveAssignments, hemp, if_neg, ite_false]
      rw [hred]
      refine ⟨?_, ?_, ?_⟩
      · intro x
        rw [ih1 x, sp1 x]
        constructor
        · rintro ((h | ⟨i, hi, hix⟩) | ⟨e, he, i, hi, hix⟩)
          · exact Or.inl h
          · exact Or.inr ⟨(person, (resolveNames L names claimed).1),
              List.mem_cons_self _ _, i, hi, hix⟩
          · exact Or.inr ⟨e, List.mem_cons_of_mem _ he, i, hi, hix⟩
        · rintro (h | ⟨e, he, i, hi, hix⟩)
          · exact Or.inl (Or.inl h)
          · rcases List.mem_cons.mp he with h2 | h2
            · subst h2
              exact Or.inl (Or.inr ⟨i, hi, hix⟩)
            · exact Or.inr ⟨e, h2, i, hi, hix⟩
      · intro e he i hi
        rcases List.mem_cons.mp he with h2 | h2
        · subst h2
          obtain ⟨g1, g2, g3⟩ := sp2 i hi
          exact ⟨g1, g2, hrefs _ g3⟩
        · obtain ⟨g1, g2, g3⟩ := ih2 e h2 i hi
          exact ⟨g1, fun hg => g2 (hmono _ hg), hrefs2 _ g3⟩
      · simp only [List.map_cons, List.flatten_cons, List.map_append]
        rw [List.nodup_append]
        refine ⟨sp3, ih3, ?_⟩
        intro x hx hx2
        rcases List.mem_map.mp hx with ⟨i, hi, rfl⟩
        rcases List.mem_map.mp hx2 with ⟨i2, hi2, hieq⟩
        have h1 : lowerStr i.name ∈ (resolveNames L names claimed).2 :=
          (sp1 _).mpr (Or.inr ⟨i, hi, rfl⟩)
        have h2 := hnotin i2 hi2
        rw [hieq] at h2
        exact h2 h1

lemma resolveAssignments_mono (L : String → Option ReceiptItem)
    (hL : ∀ ln i, L ln = some i → lowerStr i.name = ln)
    (asg : List (String × List String)) (claimed : List String)
    (x : String) (hx : x ∈ claimed) :
    x ∈ (resolveAssignments L asg claimed).2 :=
  ((resolveAssignments_spec L hL asg claimed).1 x).mpr (Or.inl hx)

lemma resolveAssignments_snd (L : String → Option ReceiptItem)
    (q : String) (qnames : List String) (rest : List (String × List String))
    (claimed : List String) :
    (resolveAssignments L ((q, qnames) :: rest) claimed).2 =
      (resolveAssignments L rest (resolveNames L qnames claimed).2).2 := by
  simp only [resolveAssignments]

lemma resolveAssignments_first (L : String → Option ReceiptItem)
    (hL : ∀ ln i, L ln = some i → lowerStr i.name = ln)
    (pre : List (String × List String)) (person : String)
    (names : List String) (post : List (String × List String))
    (claimed : List String) (ln : String) (item : ReceiptItem)
    (hitem : L ln = some item) (hc : ln ∉ claimed)
    (hpre : ln ∉ asgRefs pre) (hin : ln ∈ names.map lowerStr) :
    ∃ its, (person, its) ∈
      (resolveAssignments L (pre ++ (person, names) :: post) claimed).1 ∧
      item ∈ its := by
  induction pre generalizing claimed with
  | nil =>
    simp only [List.nil_append]
    have hfst := resolveNames_first L names claimed ln item hitem hc hin
    have hemp : (resolveNames L names claimed).1 ≠ [] := by
      intro h
      rw [h] at hfst
      cases hfst
    have hred : (resolveAssignments L ((person, names) :: post) claimed).1 =
        (person, (resolveNames L names claimed).1) ::
          (resolveAssignments L post (resolveNames L names claimed).2).1 := by
      simp only [resolveAssignments, hemp, if_neg, ite_false]
    rw [hred]
    exact ⟨(resolveNames L names claimed).1, List.mem_cons_self _ _, hfst⟩
  | cons e pre2 ih =>
    rcases e with ⟨q, qnames⟩
    have hnotref : ln ∉ qnames.map lowerStr := by
      intro h
      apply hpre
      simp only [asgRefs, List.map_cons, List.flatten_cons]
      exact List.mem_append_left _ h
    have hprerest : ln ∉ asgRefs pre2 := by
      intro h
      apply hpre
      simp only [asgRefs, List.map_cons, List.flatten_cons]
      exact List.mem_append_right _ h
    have hln2 : ln ∉ (resolveNames L qnames claimed).2 := by
      intro h
      rcases ((resolveNames_spec L hL qnames claimed).1 ln).mp h with
        h2 | ⟨i, hi, hix⟩
      · exact hc h2
      · have h3 := ((resolveNames_spec L hL qnames claimed).2.1 i hi).2.2
        rw [hix] at h3
        exact hnotref h3
    obtain ⟨its, hits, hitem2⟩ := ih (resolveNames L qnames claimed).2 hln2 hprerest
    refine ⟨its, ?_, hitem2⟩
    have hcons : ((q, qnames) :: pre2) ++ (person, names) :: post =
        (q, qnames) :: (pre2 ++ (person, names) :: post) := rfl
    rw [hcons]
    by_cases hemp : (resolveNames L qnames claimed).1 = []
    · have hred : (resolveAssignments L
          ((q, qnames) :: (pre2 ++ (person, names) :: post)) claimed).1 =
          (resolveAssignments L (pre2 ++ (person, names) :: post)
            (resolveNames L qnames claimed).2).1 := by
        simp only [resolveAssignments, hemp, if_pos]
      rw [hred]
      exact hits
    · have hred : (resolveAssignments L
          ((q, qnames) :: (pre2 ++ (person, names) :: post)) claimed).1 =
          (q, (resolveNames L qnames claimed).1) ::
            (resolveAssignments L (pre2 ++ (person, names) :: post)
              (resolveNames L qnames claimed).2).1 := by
        simp only [resolveAssignments, hemp, if_neg, ite_false]
      rw [hred]
      exact List.mem_cons_of_mem _ hits

lemma resolveAssignments_claims (L : String → Option ReceiptItem)
    (hL : ∀ ln i, L ln = some i → lowerStr i.name = ln)
    (asg : List (String × List String)) (claimed : List String)
    (ln : String) (item : ReceiptItem)
    (hitem : L ln = some item) (hin : ln ∈ asgRefs asg) :
    ln ∈ (resolveAssignments L asg claimed).2 := by
  induction asg generalizing claimed with
  | nil => simp [asgRefs] at hin
  | cons e rest ih =>
    rcases e with ⟨q, qnames⟩
    rw [resolveAssignments_snd]
    simp only [asgRefs, List.map_cons, List.flatten_cons, List.mem_append] at hin
    rcases hin with h | h
    · exact resolveAssignments_mono L hL rest _ ln
        (resolveNames_claims L hL qnames claimed ln item hitem h)
    · exact ih (resolveNames L qnames claimed).2 h

lemma filterMap_lookup_names_sublist (ris : List ReceiptItem)
    (l : List String) :
    ((l.filterMap (item_lookup ris)).map (fun i => lowerStr i.name)).Sublist
      l := by
  induction l with
  | nil => simp
  | cons x xs ih =>
    rw [List.filterMap_cons]
    rcases hx : item_lookup ris x with _ | i
    · exact ih.cons x
    · simp only [List.map_cons]
      rw [item_lookup_name ris x i hx]
      exact ih.cons₂ x

lemma defaultUnprocessed_names_nodup (ris : List ReceiptItem)
    (claimed : List String) :
    ((defaultUnprocessed ris claimed).map (fun i => lowerStr i.name)).Nodup := by
  apply (filterMap_lookup_names_sublist ris (unprocessedNames ris claimed)).nodup
  apply List.Nodup.filter
  exact (ris.map (fun i => lowerStr i.name)).nodup_dedup

lemma defaultUnprocessed_not_claimed (ris : List ReceiptItem)
    (claimed : List String) (i : ReceiptItem)
    (hi : i ∈ defaultUnprocessed ris claimed) :
    lowerStr i.name ∉ claimed ∧ item_lookup ris (lowerStr i.name) = some i := by
  rcases List.mem_filterMap.mp hi with ⟨ln, hln, hlk⟩
  have hname := item_lookup_name ris ln i hlk
  rw [← hname] at hln hlk
  rcases List.mem_filter.mp hln with ⟨_, hp⟩
  exact ⟨of_decide_eq_true hp, hlk⟩

/-- Claim C4: after reconciliation every canonical item, identified by its
lowered name, occupies at most one bucket and occurs at most once there:
the lowered names of all bucketed items are free of duplicates. -/
theorem reconcile_at_most_one_owner (pr : ContextParsingResult)
    (ris : List ReceiptItem) :
    ((bucketItems (reconcile_context pr ris)).map
      (fun i => lowerStr i.name)).Nodup := by
  have hL := item_lookup_name ris
  obtain ⟨a1, a2, a3⟩ := resolveAssignments_spec (item_lookup ris) hL
    pr.assignments []
  obtain ⟨s1, s2, s3⟩ := resolveNames_spec (item_lookup ris) hL
    pr.shared_items (resolveAssignments (item_lookup ris) pr.assignments []).2
  have hasg_in : ∀ i ∈ ((resolveAssignments (item_lookup ris)
      pr.assignments []).1.map (fun e => e.2)).flatten,
      lowerStr i.name ∈ (resolveAssignments (item_lookup ris)
        pr.assignments []).2 := by
    intro i hi
    rcases List.mem_flatten.mp hi with ⟨l, hl, hil⟩
    rcases List.mem_map.mp hl with ⟨e, he, rfl⟩
    exact (a1 _).mpr (Or.inr ⟨e, he, i, hil, rfl⟩)
  have hshared_in : ∀ i ∈ (resolveNames (item_lookup ris) pr.shared_items
      (resolveAssignments (item_lookup ris) pr.assignments []).2).1,
      lowerStr i.name ∈ (resolveNames (item_lookup ris) pr.shared_items
        (resolveAssignments (item_lookup ris) pr.assignments []).2).2 := by
    intro i hi
    exact (s1 _).mpr (Or.inr ⟨i, hi, rfl⟩)
  have hmono2 : ∀ x ∈ (resolveAssignments (item_lookup ris)
      pr.assignments []).2,
      x ∈ (resolveNames (item_lookup ris) pr.shared_items
        (resolveAssignments (item_lookup ris) pr.assignments []).2).2 :=
    fun x hx => resolveNames_mono (item_lookup ris) hL _ _ x hx
  rw [reconcile_context, bucketItems]
  simp only [List.map_append]
  rw [List.nodup_append]
  refine ⟨a3, ?_, ?_⟩
  · by_cases hcond : unprocessedNames ris (resolveNames (item_lookup ris)
        pr.shared_items (resolveAssignments (item_lookup ris)
          pr.assignments []).2).2 ≠ [] ∧ pr.participants ≠ []
    · rw [if_pos hcond, List.map_append, List.nodup_append]
      refine ⟨s3, defaultUnprocessed_names_nodup ris _, ?_⟩
      intro x hx hx2
      rcases List.mem_map.mp hx with ⟨i, hi, rfl⟩
      rcases List.mem_map.mp hx2 with ⟨i2, hi2, hieq⟩
      have h2 := (defaultUnprocessed_not_claimed ris _ i2 hi2).1
      rw [hieq] at h2
      exact h2 (hshared_in i hi)
    · rw [if_neg hcond]
      exact s3
  · intro x hx hx2
    rcases List.mem_map.mp hx with ⟨i, hi, rfl⟩
    have hxin : lowerStr i.name ∈ (resolveNames (item_lookup ris)
        pr.shared_items (resolveAssignments (item_lookup ris)
          pr.assignments []).2).2 := hmono2 _ (hasg_in i hi)
    by_cases hcond : unprocessedNames ris (resolveNames (item_lookup ris)
        pr.shared_items (resolveAssignments (item_lookup ris)
          pr.assignments []).2).2 ≠ [] ∧ pr.participants ≠ []
    · rw [if_pos hcond] at hx2
      rcases List.mem_map.mp hx2 with ⟨i2, hi2, hieq⟩
      rcases List.mem_append.mp hi2 with h2 | h2
      · have h3 := (s2 i2 h2).2.1
        rw [hieq] at h3
        exact h3 (hasg_in i hi)
      · have h3 := (defaultUnprocessed_not_claimed ris _ i2 h2).1
        rw [hieq] at h3
        exact h3 hxin
    · rw [if_neg hcond] at hx2
      rcases List.mem_map.mp hx2 with ⟨i2, hi2, hieq⟩
      have h3 := (s2 i2 hi2).2.1
      rw [hieq] at h3
      exact h3 (hasg_in i hi)

/-- Claim C5: first claim wins.  If a resolvable lowered name is first
referenced (among the assignment references, in model order) inside the
list of a given person, that person receives the looked-up item and no
item of that name reaches the shared bucket; and a resolvable name
referenced only by the shared list, not by any assignment, lands in the
shared bucket.  Assignments are processed before the shared list, so a
name in both ends up only in the assignment. -/
theorem reconcile_first_claim_wins (pr : ContextParsingResult)
    (ris : List ReceiptItem) (ln : String) (item : ReceiptItem)
    (hitem : item_lookup ris ln = some item) :
    (∀ pre person names post,
      pr.assignments = pre ++ (person, names) :: post →
      ln ∉ asgRefs pre →
      ln ∈ names.map lowerStr →
      ((∃ its, (person, its) ∈ (reconcile_context pr ris).assignments ∧
        item ∈ its) ∧
      (∀ j ∈ (reconcile_context pr ris).shared_items,
        lowerStr j.name ≠ ln))) ∧
    (ln ∉ asgRefs pr.assignments →
      ln ∈ pr.shared_items.map lowerStr →
      item ∈ (reconcile_context pr ris).shared_items) := by
  have hL := item_lookup_name ris
  obtain ⟨a1, a2, a3⟩ := resolveAssignments_spec (item_lookup ris) hL
    pr.assignments []
  obtain ⟨s1, s2, s3⟩ := resolveNames_spec (item_lookup ris) hL
    pr.shared_items (resolveAssignments (item_lookup ris) pr.assignments []).2
  constructor
  · intro pre person names post hdecomp hpre hin
    have hrefs : ln ∈ asgRefs pr.assignments := by
      rw [hdecomp]
      simp only [asgRefs, List.map_append, List.map_cons, List.flatten_append,
        List.flatten_cons, List.mem_append]
      exact Or.inr (Or.inl hin)
    have hclaimed : ln ∈ (resolveAssignments (item_lookup ris)
        pr.assignments []).2 :=
      resolveAssignments_claims (item_lookup ris) hL pr.assignments [] ln item
        hitem hrefs
    constructor
    · have h := resolveAssignments_first (item_lookup ris) hL pre person names
        post [] ln item hitem (by simp) hpre hin
      rw [← hdecomp] at h
      rw [reconcile_context]
      exact h
    · intro j hj
      rw [reconcile_context] at hj
      simp only at hj
      intro hjn
      by_cases hcond : unprocessedNames ris (resolveNames (item_lookup ris)
          pr.shared_items (resolveAssignments (item_lookup ris)
            pr.assignments []).2).2 ≠ [] ∧ pr.participants ≠ []
      · rw [if_pos hcond] at hj
        rcases List.mem_append.mp hj with h2 | h2
        · have h3 := (s2 j h2).2.1
          rw [hjn] at h3
          exact h3 hclaimed
        · have h3 := (defaultUnprocessed_not_claimed ris _ j h2).1
          rw [hjn] at h3
          exact h3 (resolveNames_mono (item_lookup ris) hL _ _ ln hclaimed)
      · rw [if_neg hcond] at hj
        have h3 := (s2 j hj).2.1
        rw [hjn] at h3
        exact h3 hclaimed
  · intro hnasg hshared
    have hnotcl : ln ∉ (resolveAssignments (item_lookup ris)
        pr.assignments []).2 := by
      intro h
      rcases (a1 ln).mp h with h2 | ⟨e, he, i, hi, hix⟩
      · cases h2
      · have h3 := (a2 e he i hi).2.2
        rw [hix] at h3
        exact hnasg h3
    have hmem := resolveNames_first (item_lookup ris) pr.shared_items
      (resolveAssignments (item_lookup ris) pr.assignments []).2 ln item
      hitem hnotcl hshared
    rw [reconcile_context]
    simp only
    by_cases hcond : unprocessedNames ris (resolveNames (item_lookup ris)
        pr.shared_items (resolveAssignments (item_lookup ris)
          pr.assignments []).2).2 ≠ [] ∧ pr.participants ≠ []
    · rw [if_pos hcond]
      exact List.mem_append_left _ hmem
    · rw [if_neg hcond]
      exact hmem

/-- Claim C6: a canonical item whose lowered name is still unclaimed
after the assignment and shared passes is appended to the shared bucket
when the participants list of the model response is non-empty; when that
list is empty the item is left out of every bucket (and the reconciled
triple is still returned, `reconcile_context` being total). -/
theorem reconcile_unprocessed_default (pr : ContextParsingResult)
    (ris : List ReceiptItem) (ln : String) (item : ReceiptItem)
    (hitem : item_lookup ris ln = some item)
    (hunproc : ln ∉ (resolveNames (item_lookup ris) pr.shared_items
      (resolveAssignments (item_lookup ris) pr.assignments []).2).2) :
    (pr.participants ≠ [] →
      item ∈ (reconcile_context pr ris).shared_items) ∧
    (pr.participants = [] →
      ∀ j ∈ bucketItems (reconcile_context pr ris),
        lowerStr j.name ≠ ln) := by
  have hL := item_lookup_name ris
  obtain ⟨a1, a2, a3⟩ := resolveAssignments_spec (item_lookup ris) hL
    pr.assignments []
  obtain ⟨s1, s2, s3⟩ := resolveNames_spec (item_lookup ris) hL
    pr.shared_items (resolveAssignments (item_lookup ris) pr.assignments []).2
  have hlnmem : ln ∈ lowerNames ris := by
    rw [lowerNames, List.mem_dedup]
    exact List.mem_map.mpr ⟨item, item_lookup_mem ris ln item hitem,
      item_lookup_name ris ln item hitem⟩
  have hlnunp : ln ∈ unprocessedNames ris (resolveNames (item_lookup ris)
      pr.shared_items (resolveAssignments (item_lookup ris)
        pr.assignments []).2).2 := by
    rw [unprocessedNames, List.mem_filter]
    exact ⟨hlnmem, decide_eq_true hunproc⟩
  constructor
  · intro hpart
    have hcond : unprocessedNames ris (resolveNames (item_lookup ris)
        pr.shared_items (resolveAssignments (item_lookup ris)
          pr.assignments []).2).2 ≠ [] ∧ pr.participants ≠ [] :=
      ⟨List.ne_nil_of_mem hlnunp, hpart⟩
    rw [reconcile_context]
    simp only
    rw [if_pos hcond]
    refine List.mem_append_right _ ?_
    rw [defaultUnprocessed]
    exact List.mem_filterMap.mpr ⟨ln, hlnunp, hitem⟩
  · intro hpart j hj hjn
    have hcond : ¬ (unprocessedNames ris (resolveNames (item_lookup ris)
        pr.shared_items (resolveAssignments (item_lookup ris)
          pr.assignments []).2).2 ≠ [] ∧ pr.participants ≠ []) := by
      rintro ⟨_, h⟩
      exact h hpart
    rw [bucketItems, reconcile_context] at hj
    simp only at hj
    rw [if_neg hcond] at hj
    rcases List.mem_append.mp hj with h2 | h2
    · rcases List.mem_flatten.mp h2 with ⟨l, hl, hjl⟩
      rcases List.mem_map.mp hl with ⟨e, he, rfl⟩
      have h3 : lowerStr j.name ∈ (resolveAssignments (item_lookup ris)
          pr.assignments []).2 := (a1 _).mpr (Or.inr ⟨e, he, j, hjl, rfl⟩)
      apply hunproc
      rw [← hjn]
      exact resolveNames_mono (item_lookup ris) hL _ _ _ h3
    · have h3 : lowerStr j.name ∈ (resolveNames (item_lookup ris)
          pr.shared_items (resolveAssignments (item_lookup ris)
            pr.assignments []).2).2 := (s1 _).mpr (Or.inr ⟨j, h2, rfl⟩)
      apply hunproc
      rw [← hjn]
      exact h3

/-- Witness for claim C5: the item named `a`, claimed by the first person
`P`, also referenced by a second person and by the shared list, ends up
only in the bucket of `P`. -/
theorem reconcile_first_claim_wins_witness :
    item_lookup [itemA] "a" = some itemA ∧
    ((∃ its, ("P", its) ∈ (reconcile_context
        ⟨[("P", ["a"]), ("Q", ["a"])], ["a"], ["P", "Q"]⟩
        [itemA]).assignments ∧ itemA ∈ its) ∧
     (∀ j ∈ (reconcile_context
        ⟨[("P", ["a"]), ("Q", ["a"])], ["a"], ["P", "Q"]⟩
        [itemA]).shared_items, lowerStr j.name ≠ "a")) := by
  refine ⟨by decide, ?_⟩
  exact (reconcile_first_claim_wins
    ⟨[("P", ["a"]), ("Q", ["a"])], ["a"], ["P", "Q"]⟩ [itemA] "a" itemA
    (by decide)).1 [] "P" ["a"] [("Q", ["a"])] rfl (by decide) (by decide)

/-- Witness for claim C6: the unreferenced item `b` defaults to shared
when participants exist, and stays out of every bucket when the model
listed no participants. -/
theorem reconcile_unprocessed_default_witness :
    (item_lookup [itemA, itemB] "b" = some itemB ∧
     itemB ∈ (reconcile_context ⟨[("P", ["a"])], [], ["P"]⟩
       [itemA, itemB]).shared_items) ∧
    (∀ j ∈ bucketItems (reconcile_context ⟨[("P", ["a"])], [], []⟩
       [itemA, itemB]), lowerStr j.name ≠ "b") := by
  refine ⟨⟨by decide, ?_⟩, ?_⟩
  · exact (reconcile_unprocessed_default ⟨[("P", ["a"])], [], ["P"]⟩
      [itemA, itemB] "b" itemB (by decide) (by decide)).1 (by decide)
  · exact (reconcile_unprocessed_default ⟨[("P", ["a"])], [], []⟩
      [itemA, itemB] "b" itemB (by decide) (by decide)).2 rfl

/-- A JSON value, as produced by the Python `json.loads` in the source. -/
inductive Json where
  | null : Json
  | bool : Bool → Json
  | num : Rat → Json
  | str : String → Json
  | arr : List Json → Json
  | obj : List (String × Json) → Json

/-- The whitespace stripped by Python `str.strip()`. -/
def pyIsSpace (c : Char) : Bool :=
  c == ' ' || c == '\t' || c == '\n' || c == '\r' || c == '\x0b' || c == '\x0c'

/-- Model of Python `str.strip()`. -/
def pyStrip (s : String) : String :=
  ⟨((s.data.dropWhile pyIsSpace).reverse.dropWhile pyIsSpace).reverse⟩

/-- Model of Python `str.startswith`. -/
def pyStartsWith (s pre : String) : Bool := pre.data.isPrefixOf s.data

/-- Model of the Python slice `s[n:]`. -/
def pyDrop (s : String) (n : Nat) : String := ⟨s.data.drop n⟩

/-- Model of the Python slice `s[:-n]` (empty when the string is not
longer than `n`, like the Python slice). -/
def pyDropRight (s : String) (n : Nat) : String := ⟨(s.data.reverse.drop n).reverse⟩

/-- The code-fence stripping of `extract_receipt_data_from_image`: strip,
then cut seven leading and three trailing characters after a json fence
marker, or three and three after a bare fence marker, then strip again. -/
def stripFences (s : String) : String :=
  let t := pyStrip s
  if pyStartsWith t "```json" then pyStrip (pyDropRight (pyDrop t 7) 3)
  else if pyStartsWith t "```" then pyStrip (pyDropRight (pyDrop t 3) 3)
  else t

/-- First binding of a key in a JSON object (objects produced by
`json.loads` carry unique keys). -/
def jsonGet : List (String × Json) → String → Option Json
  | [], _ => none
  | (k, v) :: rest, key => if k == key then some v else jsonGet rest key

/-- A field populated by alias or by field name, as the pydantic models
of the source allow via `populate_by_name`. -/
def jsonGetAlias (o : List (String × Json)) (aliasKey fieldName : String) :
    Option Json :=
  match jsonGet o aliasKey with
  | some v => some v
  | none => jsonGet o fieldName

/-- A JSON number read as a float field. -/
def asNum : Json → Option Rat
  | .num q => some q
  | _ => none

/-- A JSON number read as an int field. -/
def asInt : Json → Option Int
  | .num q => if q.den = 1 then some q.num else none
  | _ => none

/-- A JSON string read as a str field. -/
def asStr : Json → Option String
  | .str s => some s
  | _ => none

/-- Schema validation of one receipt item, mirroring the pydantic
`ReceiptItem` model with aliases `unitPrice` and `totalPrice`
(the numeric-string coercions of pydantic lax mode are not modelled; no
statement below depends on them). -/
def validateReceiptItem (j : Json) : Option ReceiptItem :=
  match j with
  | .obj o => do
    let name ← (jsonGet o "name").bind asStr
    let quantity ← (jsonGet o "quantity").bind asInt
    let up ← (jsonGetAlias o "unitPrice" "unit_price").bind asNum
    let tp ← (jsonGetAlias o "totalPrice" "total_price").bind asNum
    some ⟨name, quantity, up, tp⟩
  | _ => none

/-- Validation of the items array, failing when any element fails. -/
def validateItems : List Json → Option (List ReceiptItem)
  | [] => some []
  | j :: rest => do
    let i ← validateReceiptItem j
    let is2 ← validateItems rest
    some (i :: is2)

/-- An optional string field: absent or null gives `none`, a string gives
the value, anything else is a validation failure. -/
def optStrField (o : List (String × Json)) (key : String) :
    Option (Option String) :=
  match jsonGet o key with
  | none => some none
  | some .null => some none
  | some (.str s) => some (some s)
  | some _ => none

/-- An optional float field reachable by alias or name. -/
def optNumField (o : List (String × Json)) (aliasKey fieldName : String) :
    Option (Option Rat) :=
  match jsonGetAlias o aliasKey fieldName with
  | none => some none
  | some .null => some none
  | some (.num q) => some (some q)
  | some _ => none

/-- Schema validation of the structuring response, mirroring the pydantic
`ReceiptData` model: required `totalAmount` and `items`, optional
`merchant`, `date`, `serviceCharge`, `taxAmount`; extra fields are
ignored. -/
def validateReceiptData (j : Json) : Option ReceiptData :=
  match j with
  | .obj o => do
    let merchant ← optStrField o "merchant"
    let date ← optStrField o "date"
    let ta ← (jsonGetAlias o "totalAmount" "total_amount").bind asNum
    let itemsJson ← (match jsonGet o "items" with
      | some (.arr l) => some l
      | _ => none)
    let items ← validateItems itemsJson
    let sc ← optNumField o "serviceCharge" "service_charge"
    let tx ← optNumField o "taxAmount" "tax_amount"
    some ⟨merchant, date, ta, items, sc, tx⟩
  | _ => none

/-- The structuring tail of `extract_receipt_data_from_image`, from the
language-model response on: strip code fences, parse as JSON, validate
into `ReceiptData`.  The standard-library `json.loads` is the external
parameter `jsonLoads`.  Both failure branches of the source (the
`json.JSONDecodeError` and the pydantic `ValidationError`, both absorbed
by its broad `except` which logs and returns `None`) are the `none`
results of the bind: no exception escapes and the failure value carries
nothing. -/
def structureFromResponse (jsonLoads : String → Option Json)
    (llm_response : String) : Option ReceiptData :=
  (jsonLoads (stripFences llm_response)).bind validateReceiptData


/-- Claim C8 (amended): on a structuring response that fails JSON parsing
after fence stripping, or parses but fails the `ReceiptData` schema, the
extraction returns `none` — the failure sentinel of the source, which
carries no payload; the raw response is only logged.  The source wraps
the step in a broad except clause, so no exception reaches the caller. -/
theorem structureFromResponse_failure (jsonLoads : String → Option Json)
    (resp : String)
    (hfail : jsonLoads (stripFences resp) = none ∨
      ∃ j, jsonLoads (stripFences resp) = some j ∧
        validateReceiptData j = none) :
    structureFromResponse jsonLoads resp = none := by
  rcases hfail with h | ⟨j, hj, hv⟩
  · simp [structureFromResponse, h]
  · simp [structureFromResponse, hj, hv]

/-- Claim C8, counterexample to the carrying of the raw response: two
distinct non-JSON raw responses yield the identical failure value, and a
response that parses to an empty JSON object yet fails the schema also
returns the bare `none` — a value that cannot carry any raw response. -/
theorem structureFromResponse_counterexample :
    structureFromResponse (fun _ => none) "hello" =
      structureFromResponse (fun _ => none) "world" ∧
    "hello" ≠ "world" ∧
    structureFromResponse
      (fun s => if s = "\x7b\x7d" then some (.obj []) else none)
      "\x7b\x7d" = none := by
  refine ⟨rfl, by decide, ?_⟩
  rfl

/-- Witness for claim C8 (amended) at a concrete failing response. -/
theorem structureFromResponse_failure_witness :
    ((fun _ : String => (none : Option Json)) (stripFences "hello") = none ∨
      ∃ j, (fun _ : String => (none : Option Json)) (stripFences "hello") =
        some j ∧ validateReceiptData j = none) ∧
    structureFromResponse (fun _ => none) "hello" = none := by
  refine ⟨Or.inl rfl, ?_⟩
  exact structureFromResponse_failure (fun _ => none) "hello" (Or.inl rfl)
